import Mathlib

/-!
Verification of the Gobang AI engine (`gobang.c`).

Shallow embedding of the core engine of the console Gobang game:
board representation, win detection (`checkWin`), position and board
evaluation (`evaluatePosition`, `evaluateBoard`), the candidate filter
(`inSearchRange`), the alpha-beta minimax search (`minimax`) and the
top-level move selector (`makeAIMove`).

The C program keeps the board in a global `int board[15][15]` that the
search mutates in place and reverts.  The embedding makes that state
passing explicit: every function that mutates the board in C here takes
the board and returns the (possibly changed) board, so that frame
properties ("the board is bit-for-bit identical after the call") become
provable statements rather than assumptions.

Cell contents are the C integers (`EMPTY = 0`, `BLACK = 1`, `WHITE = 2`);
coordinates are `Int`, exactly as the C code indexes the array with `int`
values (this also lets us faithfully model the out-of-bounds write
`board[-1][-1] = WHITE` that `makeAIMove` performs on a full board).
Scores are `Int` with the C sentinels `INT_MAX` / `INT_MIN`; no arithmetic
in the engine can overflow 32-bit (the evaluation is bounded by
225 * 4 * 100000), so `Int` is a faithful model of C `int` here.
-/

set_option maxRecDepth 1000000

namespace Gobang

/-- The `EMPTY` cell value, as in the C `EMPTY` define (0). -/
def EMPTY : Nat := 0

/-- The `BLACK` cell value, as in the C `BLACK` define (1). -/
def BLACK : Nat := 1

/-- The `WHITE` cell value, as in the C `WHITE` define (2). -/
def WHITE : Nat := 2

/-- The sentinel `INF = INT_MAX` of the C search. -/
def INF : Int := 2147483647

/-- The sentinel `NEG_INF = INT_MIN` of the C search. -/
def NEG_INF : Int := -2147483648

/-- The board: cell contents indexed by `int` coordinates, mirroring the C
global `int board[15][15]` (the game only ever reads indexes `0..14`, but
the type allows any `Int` index so that the out-of-bounds accesses the C
code can perform are expressible). -/
def Board : Type := Int → Int → Nat

/-- Writing one cell, the embedding of an assignment `board[i][j] = v`. -/
def setCell (b : Board) (i j : Int) (v : Nat) : Board :=
  fun r c => if r = i ∧ c = j then v else b r c

/-- A coordinate pair lies on the 15x15 board. -/
abbrev inBounds (r c : Int) : Prop := 0 ≤ r ∧ r < 15 ∧ 0 ≤ c ∧ c < 15

/-- All board cells in the row-major order of the C double loops
`for (i = 0; i < 15; i++) for (j = 0; j < 15; j++)`. -/
def allCells : List (Int × Int) :=
  (List.range 15).flatMap
    (fun (i : Nat) => (List.range 15).map (fun (j : Nat) => ((i : Int), (j : Int))))

/-- The four direction vectors `{{0,1},{1,0},{1,1},{1,-1}}` used by
`checkWin` and `evaluatePosition`, in source order. -/
def directions : List (Int × Int) := [(0, 1), (1, 0), (1, 1), (1, -1)]

/-- One side of the `checkWin` walk: the loop `for (i = 1; i <= 4; i++)`
that steps from `(row, col)` along `(dr, dc)` collecting coordinates and
breaking at the first out-of-bounds cell or cell not owned by `player`.
`fuel` counts the remaining iterations, `i` is the current step index. -/
def walkDir (b : Board) (row col dr dc : Int) (player : Nat) : Nat → Nat → List (Int × Int)
  | 0, _ => []
  | fuel + 1, i =>
    let nr := row + dr * (i : Int)
    let nc := col + dc * (i : Int)
    if nr < 0 ∨ 15 ≤ nr ∨ nc < 0 ∨ 15 ≤ nc ∨ b nr nc ≠ player then []
    else (nr, nc) :: walkDir b row col dr dc player fuel (i + 1)

/-- The direction loop of `checkWin`: for each direction collect
`positions = origin :: forward steps ++ backward steps`; if at least 5
were collected, answer the first five in scan order, otherwise try the
next direction.  (In C the win line is stored into the global
`winningPositions` and `1` is returned; here the line is the `some`
payload.) -/
def checkWinDirs (b : Board) (row col : Int) (player : Nat) :
    List (Int × Int) → Option (List (Int × Int))
  | [] => none
  | d :: rest =>
    let positions := (row, col) ::
      (walkDir b row col d.1 d.2 player 4 1 ++ walkDir b row col (-d.1) (-d.2) player 4 1)
    if 5 ≤ positions.length then some (positions.take 5)
    else checkWinDirs b row col player rest

/-- The function `checkWin(row, col)` from the source: the player is read from the
origin cell itself (`int player = board[row][col];`), with no check that
the cell is occupied. -/
def checkWin (b : Board) (row col : Int) : Option (List (Int × Int)) :=
  checkWinDirs b row col (b row col) directions

/-- One side of the `evaluatePosition` scan (`for (i = 1; i <= 4; i++)`):
returns the number of `player` stones stepped over and the `block`
contribution of this side (1 when the loop broke at an out-of-bounds cell
or an opponent stone, 0 when it broke at an empty cell or ran out of
steps). -/
def sideScan (b : Board) (row col dr dc : Int) (player : Nat) : Nat → Nat → Nat × Nat
  | 0, _ => (0, 0)
  | fuel + 1, i =>
    let nr := row + dr * (i : Int)
    let nc := col + dc * (i : Int)
    if nr < 0 ∨ 15 ≤ nr ∨ nc < 0 ∨ 15 ≤ nc then (0, 1)
    else if b nr nc = player then
      ((sideScan b row col dr dc player fuel (i + 1)).1 + 1,
       (sideScan b row col dr dc player fuel (i + 1)).2)
    else if b nr nc ≠ EMPTY then (0, 1)
    else (0, 0)

/-- The per-direction scoring chain of `evaluatePosition`. -/
def dirScore (count block : Nat) : Int :=
  if 5 ≤ count then 100000
  else if count = 4 ∧ block = 0 then 10000
  else if count = 4 ∧ block = 1 then 1000
  else if count = 3 ∧ block = 0 then 1000
  else if count = 3 ∧ block = 1 then 100
  else if count = 2 ∧ block = 0 then 100
  else 0

/-- The function `evaluatePosition(row, col, player)`: for each of the four directions
scan both sides (`count` starts at 1 for the origin, `block` accumulates
over both sides) and add the table score. -/
def evaluatePosition (b : Board) (row col : Int) (player : Nat) : Int :=
  (directions.map (fun d =>
    dirScore
      (1 + (sideScan b row col d.1 d.2 player 4 1).1 +
        (sideScan b row col (-d.1) (-d.2) player 4 1).1)
      ((sideScan b row col d.1 d.2 player 4 1).2 +
        (sideScan b row col (-d.1) (-d.2) player 4 1).2))).foldl (· + ·) 0

/-- The function `evaluateBoard()`: add `evaluatePosition` for every WHITE cell,
subtract it for every BLACK cell. -/
def evaluateBoard (b : Board) : Int :=
  allCells.foldl (fun score p =>
    if b p.1 p.2 = WHITE then score + evaluatePosition b p.1 p.2 WHITE
    else if b p.1 p.2 = BLACK then score - evaluatePosition b p.1 p.2 BLACK
    else score) 0

/-- The function `inSearchRange(row, col)`: true iff some in-bounds cell of the 5x5
window centred on `(row, col)` (`SEARCH_RANGE = 2`) is occupied. -/
def inSearchRange (b : Board) (row col : Int) : Bool :=
  (List.range 5).any (fun di => (List.range 5).any (fun dj =>
    let i := row - 2 + (di : Int)
    let j := col - 2 + (dj : Int)
    decide (0 ≤ i ∧ i < 15 ∧ 0 ≤ j ∧ j < 15) && decide (b i j ≠ EMPTY)))

/-- The move-candidate guard `board[i][j] == EMPTY && inSearchRange(i, j)`
shared by both `minimax` loops and by `makeAIMove`. -/
def isCandidate (b : Board) (i j : Int) : Bool :=
  decide (b i j = EMPTY) && inSearchRange b i j

/-- The maximizing double loop of `minimax`: try WHITE on each candidate
cell in row-major order, run the recursive search (`step`), revert the
cell, fold the running maximum and `alpha`, and return early on a beta
cutoff.  The board is threaded explicitly: `step` returns the board it
leaves behind, and the revert is applied to that board, exactly as the C
code reverts the global after the recursive call. -/
def maxLoop (step : Board → Int → Int → Int × Board) :
    List (Int × Int) → Board → Int → Int → Int → Int × Board
  | [], b, maxEval, _, _ => (maxEval, b)
  | p :: rest, b, maxEval, alpha, beta =>
    if isCandidate b p.1 p.2 then
      let r := step (setCell b p.1 p.2 WHITE) alpha beta
      let b2 := setCell r.2 p.1 p.2 EMPTY
      let maxEval2 := if r.1 > maxEval then r.1 else maxEval
      let alpha2 := if alpha > r.1 then alpha else r.1
      if beta ≤ alpha2 then (maxEval2, b2)
      else maxLoop step rest b2 maxEval2 alpha2 beta
    else maxLoop step rest b maxEval alpha beta

/-- The minimizing double loop of `minimax`, symmetric to `maxLoop`:
tries BLACK, folds the running minimum and `beta`. -/
def minLoop (step : Board → Int → Int → Int × Board) :
    List (Int × Int) → Board → Int → Int → Int → Int × Board
  | [], b, minEval, _, _ => (minEval, b)
  | p :: rest, b, minEval, alpha, beta =>
    if isCandidate b p.1 p.2 then
      let r := step (setCell b p.1 p.2 BLACK) alpha beta
      let b2 := setCell r.2 p.1 p.2 EMPTY
      let minEval2 := if r.1 < minEval then r.1 else minEval
      let beta2 := if beta < r.1 then beta else r.1
      if beta2 ≤ alpha then (minEval2, b2)
      else minLoop step rest b2 minEval2 alpha beta2
    else minLoop step rest b minEval alpha beta

/-- The function `minimax(depth, alpha, beta, maximizingPlayer)`.  The C function reads
and writes the global board; here it takes the board and returns the
score together with the board it leaves behind.  Depth is a `Nat`
(the program only ever calls it with nonnegative depth, `AI_DEPTH - 1`
with `AI_DEPTH` in `{2,3,4}`); `depth == 0 || depth >= MAX_DEPTH` is the
leaf test with `MAX_DEPTH = 5`. -/
def minimax : Nat → Board → Int → Int → Bool → Int × Board
  | 0, b, _, _, _ => (evaluateBoard b, b)
  | d + 1, b, alpha, beta, maximizingPlayer =>
    if 5 ≤ d + 1 then (evaluateBoard b, b)
    else if maximizingPlayer then
      maxLoop (fun b2 a2 b3 => minimax d b2 a2 b3 false) allCells b NEG_INF alpha beta
    else
      minLoop (fun b2 a2 b3 => minimax d b2 a2 b3 true) allCells b INF alpha beta

/-- The candidate loop of `makeAIMove`: try WHITE on each candidate,
search with `minimax(AI_DEPTH - 1, NEG_INF, INF, 0)`, revert, and keep
the first strictly-best cell.  Returns
`(bestScore, bestRow, bestCol, board)`. -/
def selectLoop (d : Nat) : List (Int × Int) → Board → Int → Int → Int → Int × Int × Int × Board
  | [], b, best, br, bc => (best, br, bc, b)
  | p :: rest, b, best, br, bc =>
    if isCandidate b p.1 p.2 then
      let r := minimax d (setCell b p.1 p.2 WHITE) NEG_INF INF false
      let b2 := setCell r.2 p.1 p.2 EMPTY
      if r.1 > best then selectLoop d rest b2 r.1 p.1 p.2
      else selectLoop d rest b2 best br bc
    else selectLoop d rest b best br bc

/-- The function `makeAIMove(&row, &col)` with the configured depth made an explicit
parameter (`aiDepth` is the global `AI_DEPTH`).  After the candidate loop
the C function itself places the chosen stone,
`board[bestRow][bestCol] = WHITE`, and reports the coordinates through
the out-parameters; here it returns `((bestRow, bestCol), finalBoard)`.
`bestRow`/`bestCol` start at `-1` and stay `-1` when no candidate exists,
in which case the final store writes cell `(-1, -1)`. -/
def makeAIMove (b : Board) (aiDepth : Nat) : (Int × Int) × Board :=
  let r := selectLoop (aiDepth - 1) allCells b NEG_INF (-1) (-1)
  ((r.2.1, r.2.2.1), setCell r.2.2.2 r.2.1 r.2.2.1 WHITE)

/-- The all-empty board. -/
def emptyBoard : Board := fun _ _ => EMPTY

/-- A board with every cell occupied by BLACK. -/
def fullBoard : Board := fun _ _ => BLACK

/-- A board with every cell occupied by BLACK except the single empty
cell `(7, 7)`. -/
def almostFullBoard : Board := fun r c => if r = 7 ∧ c = 7 then EMPTY else BLACK

/-! ## Spec-level scanning vocabulary

The spec describes the line scans in terms of "contiguous run length",
"blocked ends" and collected coordinates.  The following definitions
state that vocabulary directly (maximal `takeWhile` prefixes of the step
indexes `1..4`), to be compared with the loop transcriptions above. -/

/-- Step `i` from the origin along `(dr, dc)` lands on an in-bounds cell
owned by `player` (the condition under which the C scan loops continue). -/
def stepIsPlayer (b : Board) (row col dr dc : Int) (player : Nat) (i : Nat) : Bool :=
  decide (inBounds (row + dr * (i : Int)) (col + dc * (i : Int))) &&
    decide (b (row + dr * (i : Int)) (col + dc * (i : Int)) = player)

/-- Length of the maximal contiguous run of `player` stones over the step
indexes `i, i+1, ..., i+fuel-1`. -/
def prefLen (b : Board) (row col dr dc : Int) (player : Nat) (i fuel : Nat) : Nat :=
  ((List.range' i fuel).takeWhile (stepIsPlayer b row col dr dc player)).length

/-- The cell at step `j` stops the scan "blocked": it is out of bounds or
holds a stone that is neither empty nor the scanned player's. -/
abbrev stopBlocked (b : Board) (row col dr dc : Int) (player : Nat) (j : Nat) : Prop :=
  ¬ inBounds (row + dr * (j : Int)) (col + dc * (j : Int)) ∨
    (b (row + dr * (j : Int)) (col + dc * (j : Int)) ≠ EMPTY ∧
      b (row + dr * (j : Int)) (col + dc * (j : Int)) ≠ player)

/-- The other player's stone value. -/
def opponent (player : Nat) : Nat := if player = BLACK then WHITE else BLACK

/-- Run length of one side of a direction scan, per the spec's words:
the maximal number of contiguous `player` stones over at most 4 steps. -/
abbrev specRunSide (b : Board) (row col : Int) (d : Int × Int) (player : Nat) : Nat :=
  prefLen b row col d.1 d.2 player 1 4

/-- One side of a direction counts as a blocked end, per the spec's
words: the scan stopped before its 4-step budget, and the stopping cell
is off the board or holds an opponent stone (an empty stopping cell is an
open end and contributes nothing). -/
abbrev specSideBlocked (b : Board) (row col : Int) (d : Int × Int) (player : Nat) : Prop :=
  specRunSide b row col d player < 4 ∧
    (¬ inBounds (row + d.1 * ((1 + specRunSide b row col d player : Nat) : Int))
        (col + d.2 * ((1 + specRunSide b row col d player : Nat) : Int)) ∨
      b (row + d.1 * ((1 + specRunSide b row col d player : Nat) : Int))
        (col + d.2 * ((1 + specRunSide b row col d player : Nat) : Int)) = opponent player)

/-- Contiguous run length through the origin along direction `d`: the
origin plus both sides, each scanning at most 4 steps. -/
def specRunLength (b : Board) (row col : Int) (d : Int × Int) (player : Nat) : Nat :=
  1 + specRunSide b row col d player + specRunSide b row col (-d.1, -d.2) player

/-- Blocked-ends count in `{0, 1, 2}` for direction `d`. -/
def specBlockedEnds (b : Board) (row col : Int) (d : Int × Int) (player : Nat) : Nat :=
  (if specSideBlocked b row col d player then 1 else 0) +
    (if specSideBlocked b row col (-d.1, -d.2) player then 1 else 0)

/-- The coordinates `checkWin` is specified to report for direction `d`:
origin, then the positive-direction contiguous stones, then the
negative-direction ones, truncated to five. -/
def specWinCoords (b : Board) (row col : Int) (d : Int × Int) (player : Nat) :
    List (Int × Int) :=
  ((row, col) ::
    (((List.range' 1 4).takeWhile (stepIsPlayer b row col d.1 d.2 player)).map
        (fun (k : Nat) => (row + d.1 * (k : Int), col + d.2 * (k : Int))) ++
      ((List.range' 1 4).takeWhile (stepIsPlayer b row col (-d.1) (-d.2) player)).map
        (fun (k : Nat) => (row + -d.1 * (k : Int), col + -d.2 * (k : Int))))).take 5

/-- The win detector as the spec words it: the first direction (in source
order) whose contiguous run through the origin reaches 5 yields the first
five collected coordinates; otherwise none. -/
def specCheckWin (b : Board) (row col : Int) : Option (List (Int × Int)) :=
  (directions.find? (fun d => decide (5 ≤ specRunLength b row col d (b row col)))).map
    (fun d => specWinCoords b row col d (b row col))

/-- Per-cell contribution to the board evaluation, parameterized by which
player is maximizing (the source hard-codes WHITE as maximizing). -/
def cellStep (b : Board) (maxPlayer : Nat) (score : Int) (p : Int × Int) : Int :=
  if b p.1 p.2 = maxPlayer then score + evaluatePosition b p.1 p.2 maxPlayer
  else if b p.1 p.2 = opponent maxPlayer then
    score - evaluatePosition b p.1 p.2 (opponent maxPlayer)
  else score

/-- The board evaluation with the maximizing player a parameter, following the
spec's description (add `evaluateCell` over cells owned by the maximizing
player, subtract it over cells owned by the minimizing player);
`evaluateBoardAs b WHITE` is definitionally the source's
`evaluateBoard b`. -/
def evaluateBoardAs (b : Board) (maxPlayer : Nat) : Int :=
  allCells.foldl (cellStep b maxPlayer) 0

/-- Row-major strict order on cells (row ascending, then column ascending
within a row). -/
abbrev rowMajorLt (p q : Int × Int) : Prop :=
  p.1 < q.1 ∨ (p.1 = q.1 ∧ p.2 < q.2)

/-- Three WHITE stones in a row at `(7,7)-(7,9)`. -/
def boardThreeWhite : Board :=
  setCell (setCell (setCell emptyBoard 7 7 WHITE) 7 8 WHITE) 7 9 WHITE

/-- Characterization of `sideScan`: the count it returns is the maximal
contiguous-run length over its remaining step indexes, and its block
contribution is 1 exactly when the run ended before the step budget at a
blocked cell (out of bounds or an incompatible stone), 0 when it ended at
an empty cell or by exhausting the budget. -/
theorem sideScan_char (b : Board) (row col dr dc : Int) (player : Nat) :
    ∀ (fuel i : Nat),
      sideScan b row col dr dc player fuel i =
        (prefLen b row col dr dc player i fuel,
          if prefLen b row col dr dc player i fuel < fuel ∧
              stopBlocked b row col dr dc player (i + prefLen b row col dr dc player i fuel)
            then 1 else 0) := by
  intro fuel
  induction fuel with
  | zero =>
    intro i
    simp [sideScan, prefLen, List.range']
  | succ f ih =>
    intro i
    by_cases hin : inBounds (row + dr * (i : Int)) (col + dc * (i : Int))
    · by_cases hp : b (row + dr * (i : Int)) (col + dc * (i : Int)) = player
      · have hstep : stepIsPlayer b row col dr dc player i = true := by
          simp [stepIsPlayer, hin, hp]
        have hpl : prefLen b row col dr dc player i (f + 1) =
            prefLen b row col dr dc player (i + 1) f + 1 := by
          simp [prefLen, List.range'_succ, List.takeWhile_cons, hstep]
        simp only [sideScan]
        rw [if_neg (by omega : ¬ (row + dr * (i : Int) < 0 ∨ 15 ≤ row + dr * (i : Int) ∨
              col + dc * (i : Int) < 0 ∨ 15 ≤ col + dc * (i : Int))),
          if_pos hp, ih (i + 1), hpl]
        refine Prod.ext rfl ?_
        refine if_congr ?_ rfl rfl
        constructor
        · rintro ⟨h1, h2⟩
          exact ⟨by omega, by rw [show i + (prefLen b row col dr dc player (i + 1) f + 1) =
            i + 1 + prefLen b row col dr dc player (i + 1) f from by omega]; exact h2⟩
        · rintro ⟨h1, h2⟩
          exact ⟨by omega, by rw [show i + 1 + prefLen b row col dr dc player (i + 1) f =
            i + (prefLen b row col dr dc player (i + 1) f + 1) from by omega]; exact h2⟩
      · have hstep : stepIsPlayer b row col dr dc player i = false := by
          simp [stepIsPlayer, hp]
        have hpl : prefLen b row col dr dc player i (f + 1) = 0 := by
          simp [prefLen, List.range'_succ, List.takeWhile_cons, hstep]
        by_cases he : b (row + dr * (i : Int)) (col + dc * (i : Int)) = EMPTY
        · simp only [sideScan]
          rw [if_neg (by omega : ¬ (row + dr * (i : Int) < 0 ∨ 15 ≤ row + dr * (i : Int) ∨
                col + dc * (i : Int) < 0 ∨ 15 ≤ col + dc * (i : Int))),
            if_neg hp, if_neg (by simp [he]), hpl,
            if_neg (by simp [stopBlocked, hin, he])]
        · simp only [sideScan]
          rw [if_neg (by omega : ¬ (row + dr * (i : Int) < 0 ∨ 15 ≤ row + dr * (i : Int) ∨
                col + dc * (i : Int) < 0 ∨ 15 ≤ col + dc * (i : Int))),
            if_neg hp, if_pos he, hpl,
            if_pos ⟨by omega, Or.inr ⟨he, hp⟩⟩]
    · have hstep : stepIsPlayer b row col dr dc player i = false := by
        simp [stepIsPlayer, hin]
      have hpl : prefLen b row col dr dc player i (f + 1) = 0 := by
        simp [prefLen, List.range'_succ, List.takeWhile_cons, hstep]
      simp only [sideScan]
      rw [if_pos (by simp only [inBounds, not_and_or, not_le, not_lt] at hin; omega :
            row + dr * (i : Int) < 0 ∨ 15 ≤ row + dr * (i : Int) ∨
              col + dc * (i : Int) < 0 ∨ 15 ≤ col + dc * (i : Int)), hpl,
        if_pos ⟨by omega, Or.inl hin⟩]

/-- Characterization of `walkDir`: it collects exactly the coordinates of
the maximal contiguous run of `player` stones over its step indexes. -/
theorem walkDir_char (b : Board) (row col dr dc : Int) (player : Nat) :
    ∀ (fuel i : Nat),
      walkDir b row col dr dc player fuel i =
        ((List.range' i fuel).takeWhile (stepIsPlayer b row col dr dc player)).map
          (fun (k : Nat) => (row + dr * (k : Int), col + dc * (k : Int))) := by
  intro fuel
  induction fuel with
  | zero =>
    intro i
    simp [walkDir, List.range']
  | succ f ih =>
    intro i
    by_cases hstep : stepIsPlayer b row col dr dc player i = true
    · have hin : inBounds (row + dr * (i : Int)) (col + dc * (i : Int)) ∧
          b (row + dr * (i : Int)) (col + dc * (i : Int)) = player := by
        simpa [stepIsPlayer] using hstep
      obtain ⟨hin1, hin2⟩ := hin
      simp only [walkDir]
      rw [if_neg (by push_neg; exact ⟨by omega, by omega, by omega, by omega,
            hin2⟩ : ¬ (row + dr * (i : Int) < 0 ∨ 15 ≤ row + dr * (i : Int) ∨
              col + dc * (i : Int) < 0 ∨ 15 ≤ col + dc * (i : Int) ∨
              b (row + dr * (i : Int)) (col + dc * (i : Int)) ≠ player)), ih (i + 1)]
      rw [List.range'_succ, List.takeWhile_cons, if_pos hstep, List.map_cons]
    · have hbreak : row + dr * (i : Int) < 0 ∨ 15 ≤ row + dr * (i : Int) ∨
          col + dc * (i : Int) < 0 ∨ 15 ≤ col + dc * (i : Int) ∨
          b (row + dr * (i : Int)) (col + dc * (i : Int)) ≠ player := by
        simp only [stepIsPlayer, Bool.and_eq_true, decide_eq_true_eq, not_and_or] at hstep
        rcases hstep with h | h
        · simp only [inBounds, not_and_or, not_le, not_lt] at h; omega
        · tauto
      simp only [walkDir]
      rw [if_pos hbreak, List.range'_succ, List.takeWhile_cons, if_neg hstep, List.map_nil]

/-- Membership in `allCells` is exactly being an in-bounds coordinate. -/
theorem mem_allCells {r c : Int} : (r, c) ∈ allCells ↔ inBounds r c := by
  simp only [allCells, List.mem_flatMap, List.mem_map, List.mem_range]
  constructor
  · rintro ⟨i, hi, j, hj, hpair⟩
    have hr : (i : Int) = r := congrArg Prod.fst hpair
    have hc : (j : Int) = c := congrArg Prod.snd hpair
    refine ⟨by omega, by omega, by omega, by omega⟩
  · rintro ⟨h1, h2, h3, h4⟩
    exact ⟨r.toNat, by omega, c.toNat, by omega,
      by rw [Int.toNat_of_nonneg h1, Int.toNat_of_nonneg h3]⟩

/-! ## Frame lemmas: simulate-and-revert restores the board -/

/-- Writing a value into an empty cell and then writing `EMPTY` back
restores the board exactly. -/
theorem setCell_revert (b : Board) (i j : Int) (v : Nat) (h : b i j = EMPTY) :
    setCell (setCell b i j v) i j EMPTY = b := by
  funext r c
  simp only [setCell]
  by_cases hrc : r = i ∧ c = j
  · rw [if_pos hrc, hrc.1, hrc.2, h]
  · rw [if_neg hrc, if_neg hrc]

/-- A candidate cell is empty (the first conjunct of the guard). -/
theorem isCandidate_empty {b : Board} {i j : Int} (h : isCandidate b i j = true) :
    b i j = EMPTY := by
  simp only [isCandidate, Bool.and_eq_true, decide_eq_true_eq] at h
  exact h.1

/-- The maximizing loop restores the board it was given, provided the
recursive search does, on every path including the beta-cutoff early
return. -/
theorem maxLoop_frame (step : Board → Int → Int → Int × Board)
    (hstep : ∀ (b : Board) (a2 b3 : Int), (step b a2 b3).2 = b) :
    ∀ (cells : List (Int × Int)) (b : Board) (m a2 b3 : Int),
      (maxLoop step cells b m a2 b3).2 = b := by
  intro cells
  induction cells with
  | nil => intro b m a2 b3; rfl
  | cons p rest ih =>
    intro b m a2 b3
    by_cases hc : isCandidate b p.1 p.2 = true
    · have he : b p.1 p.2 = EMPTY := isCandidate_empty hc
      simp only [maxLoop, hc, if_true, hstep, setCell_revert b p.1 p.2 WHITE he]
      split <;> split <;> first | rfl | exact ih b _ _ _
    · simp only [maxLoop, hc, if_false]
      exact ih b m a2 b3

/-- The minimizing loop restores the board it was given, provided the
recursive search does. -/
theorem minLoop_frame (step : Board → Int → Int → Int × Board)
    (hstep : ∀ (b : Board) (a2 b3 : Int), (step b a2 b3).2 = b) :
    ∀ (cells : List (Int × Int)) (b : Board) (m a2 b3 : Int),
      (minLoop step cells b m a2 b3).2 = b := by
  intro cells
  induction cells with
  | nil => intro b m a2 b3; rfl
  | cons p rest ih =>
    intro b m a2 b3
    by_cases hc : isCandidate b p.1 p.2 = true
    · have he : b p.1 p.2 = EMPTY := isCandidate_empty hc
      simp only [minLoop, hc, if_true, hstep, setCell_revert b p.1 p.2 BLACK he]
      split <;> split <;> first | rfl | exact ih b _ _ _
    · simp only [minLoop, hc, if_false]
      exact ih b m a2 b3

/-- The search `minimax` restores the board on every path, at every depth. -/
theorem minimax_frame :
    ∀ (depth : Nat) (b : Board) (alpha beta : Int) (m : Bool),
      (minimax depth b alpha beta m).2 = b := by
  intro depth
  induction depth with
  | zero => intro b alpha beta m; rfl
  | succ d ih =>
    intro b alpha beta m
    simp only [minimax]
    split
    · rfl
    · split
      · exact maxLoop_frame _ (fun b2 a2 b3 => ih b2 a2 b3 false) allCells b NEG_INF alpha beta
      · exact minLoop_frame _ (fun b2 a2 b3 => ih b2 a2 b3 true) allCells b INF alpha beta

/-- The candidate loop of `makeAIMove` restores the board it was given. -/
theorem selectLoop_frame (d : Nat) :
    ∀ (cells : List (Int × Int)) (b : Board) (best br bc : Int),
      (selectLoop d cells b best br bc).2.2.2 = b := by
  intro cells
  induction cells with
  | nil => intro b best br bc; rfl
  | cons p rest ih =>
    intro b best br bc
    by_cases hc : isCandidate b p.1 p.2 = true
    · have he : b p.1 p.2 = EMPTY := isCandidate_empty hc
      simp only [selectLoop, hc, if_true, minimax_frame, setCell_revert b p.1 p.2 WHITE he]
      split
      · exact ih b _ p.1 p.2
      · exact ih b best br bc
    · simp only [selectLoop, hc, if_false]
      exact ih b best br bc

/-- Claim C1: for every board, every depth ≥ 1, every `(alpha, beta)`
window and either side to move, `minimax` leaves the board bit-for-bit
identical to its state before the call: every simulated stone is
reverted to `EMPTY` before the function returns, including when a branch
triggers an alpha-beta cutoff and returns early.  (The frame holds for
every depth; the hypothesis matches the claim's quantifier.) -/
theorem minimax_preserves_board (depth : Nat) (b : Board) (alpha beta : Int)
    (maximizingPlayer : Bool) (hd : 1 ≤ depth) :
    (minimax depth b alpha beta maximizingPlayer).2 = b :=
  minimax_frame depth b alpha beta maximizingPlayer

/-- Witness for C1 at depth 1, the empty board and the full
`(NEG_INF, INF)` window. -/
theorem minimax_preserves_board_witness :
    1 ≤ 1 ∧ (minimax 1 emptyBoard NEG_INF INF true).2 = emptyBoard :=
  ⟨by decide, minimax_preserves_board 1 emptyBoard NEG_INF INF true (by decide)⟩

/-- Claim C2, counterexample: `makeAIMove` does mutate the board: on the
board whose only empty cell is `(7, 7)`, invoked with the Easy depth 2,
the board after the call differs from the board before (the chosen stone
has been placed by `makeAIMove` itself, `board[bestRow][bestCol] = WHITE`). -/
theorem makeAIMove_mutates_board :
    (makeAIMove almostFullBoard 2).2 ≠ almostFullBoard := by
  intro h
  have h2 : (makeAIMove almostFullBoard 2).2 7 7 = almostFullBoard 7 7 := by rw [h]
  have h3 : (makeAIMove almostFullBoard 2).2 7 7 = WHITE := by decide
  have h4 : almostFullBoard 7 7 = EMPTY := by decide
  rw [h3, h4] at h2
  exact absurd h2 (by decide)

/-- Claim C2, amended: the candidate-evaluation loop of `makeAIMove`
reverts every simulated stone, but the function then applies the chosen
move itself: the board after the call equals the board before the call
with the returned cell set to `WHITE` (it is not returned unchanged for
the caller to apply). -/
theorem makeAIMove_applies_chosen (b : Board) (aiDepth : Nat) :
    (makeAIMove b aiDepth).2 =
      setCell b (makeAIMove b aiDepth).1.1 (makeAIMove b aiDepth).1.2 WHITE := by
  simp only [makeAIMove]
  rw [selectLoop_frame]

/-- Claim C3: on a full board `makeAIMove` finds no candidate and leaves
`bestRow = bestCol = -1`, but instead of only signalling this it still
executes `board[bestRow][bestCol] = WHITE`: the embedding records the
write at cell `(-1, -1)`, which in the C program is an out-of-bounds
store (undefined behavior).  Evaluated at the failing input (all cells
BLACK, Medium depth 3). -/
theorem makeAIMove_full_board_oob_write :
    (makeAIMove fullBoard 3).1 = (-1, -1) ∧
    (makeAIMove fullBoard 3).2 (-1) (-1) = WHITE ∧
    fullBoard (-1) (-1) = BLACK := by
  refine ⟨by decide, by decide, by decide⟩

/-- The maximizing loop returns its initial accumulator and board when no
cell passes the candidate guard. -/
theorem maxLoop_no_candidates (step : Board → Int → Int → Int × Board) :
    ∀ (cells : List (Int × Int)) (b : Board) (m a2 b3 : Int),
      (∀ p ∈ cells, isCandidate b p.1 p.2 = false) →
      maxLoop step cells b m a2 b3 = (m, b) := by
  intro cells
  induction cells with
  | nil => intro b m a2 b3 _; rfl
  | cons p rest ih =>
    intro b m a2 b3 h
    have hp : isCandidate b p.1 p.2 = false := h p (List.mem_cons_self p rest)
    simp only [maxLoop, hp, Bool.false_eq_true, if_false]
    exact ih b m a2 b3 (fun q hq => h q (List.mem_cons_of_mem p hq))

/-- The minimizing loop returns its initial accumulator and board when no
cell passes the candidate guard. -/
theorem minLoop_no_candidates (step : Board → Int → Int → Int × Board) :
    ∀ (cells : List (Int × Int)) (b : Board) (m a2 b3 : Int),
      (∀ p ∈ cells, isCandidate b p.1 p.2 = false) →
      minLoop step cells b m a2 b3 = (m, b) := by
  intro cells
  induction cells with
  | nil => intro b m a2 b3 _; rfl
  | cons p rest ih =>
    intro b m a2 b3 h
    have hp : isCandidate b p.1 p.2 = false := h p (List.mem_cons_self p rest)
    simp only [minLoop, hp, Bool.false_eq_true, if_false]
    exact ih b m a2 b3 (fun q hq => h q (List.mem_cons_of_mem p hq))

/-- Claim C4, counterexample: at the internal node depth 1 on the empty
board (which has no candidate cell), `minimax` does not return
`evaluateBoard` (which is 0 there): it returns the sentinel `INT_MIN`. -/
theorem minimax_no_candidate_neq_eval :
    (minimax 1 emptyBoard NEG_INF INF true).1 ≠ evaluateBoard emptyBoard := by
  decide

/-- Claim C4, amended: at a search node with no candidate cell, `minimax`
returns the untouched loop accumulator — `INT_MIN` when maximizing,
`INT_MAX` when minimizing — whenever `1 ≤ depth < 5`; only for
`depth ≥ 5` does the leaf test fire and make it return
`evaluateBoard(board)`. -/
theorem minimax_no_candidate_result (depth : Nat) (b : Board) (alpha beta : Int)
    (m : Bool) (h1 : 1 ≤ depth)
    (hnc : ∀ p ∈ allCells, isCandidate b p.1 p.2 = false) :
    (minimax depth b alpha beta m).1 =
      if depth < 5 then (if m then NEG_INF else INF) else evaluateBoard b := by
  cases depth with
  | zero => exact absurd h1 (by omega)
  | succ d =>
    simp only [minimax]
    by_cases h5 : 5 ≤ d + 1
    · rw [if_pos h5, if_neg (by omega : ¬ (d + 1 < 5))]
    · rw [if_neg h5, if_pos (by omega : d + 1 < 5)]
      cases m with
      | true =>
        rw [if_pos rfl, if_pos rfl, maxLoop_no_candidates _ allCells b NEG_INF alpha beta hnc]
      | false =>
        rw [if_neg (by decide : ¬ (false = true)), if_neg (by decide : ¬ (false = true)),
          minLoop_no_candidates _ allCells b INF alpha beta hnc]

/-- Witness for C4 (amended) at depth 1 on the empty board. -/
theorem minimax_no_candidate_result_witness :
    (1 ≤ 1 ∧ (∀ p ∈ allCells, isCandidate emptyBoard p.1 p.2 = false)) ∧
    (minimax 1 emptyBoard NEG_INF INF true).1 =
      if 1 < 5 then (if true then NEG_INF else INF) else evaluateBoard emptyBoard :=
  ⟨⟨by decide, by decide⟩,
    minimax_no_candidate_result 1 emptyBoard NEG_INF INF true (by decide) (by decide)⟩

/-- Claim C9: `makeAIMove` is a pure function of exactly the board and the
configured depth: the embedding takes only these two inputs because the C
code on this path reads only the global `board` and `AI_DEPTH` and never
consults a randomness source (`rand` occurs only in `makeAIHelpMove`).
Hence two invocations on identical boards with identical configured depth
return the same move. -/
theorem makeAIMove_deterministic (b1 b2 : Board) (d1 d2 : Nat)
    (hb : b1 = b2) (hd : d1 = d2) :
    (makeAIMove b1 d1).1 = (makeAIMove b2 d2).1 := by
  subst hb; subst hd; rfl

/-- Witness for C9: two invocations on the full board at depth 3. -/
theorem makeAIMove_deterministic_witness :
    (makeAIMove fullBoard 3).1 = (makeAIMove fullBoard 3).1 :=
  makeAIMove_deterministic fullBoard fullBoard 3 3 rfl rfl

/-- Claim C10: `checkWin` reads the player from the origin cell without
validating that it is occupied: on the completely empty board, origin
`(7, 7)` (an `EMPTY` cell inside a line of ≥ 5 contiguous `EMPTY` cells)
is reported as a win for the `EMPTY` value — the first five coordinates
of the first direction's scan — instead of `none`. -/
theorem checkWin_empty_origin_reports_win :
    checkWin emptyBoard 7 7 = some [(7, 7), (7, 8), (7, 9), (7, 10), (7, 11)] ∧
    emptyBoard 7 7 = EMPTY := by
  refine ⟨by decide, by decide⟩

/-- On a well-formed board, "not empty and not the scanned player's
stone" is the same as "the opponent's stone" (for an in-bounds cell). -/
theorem blockedCell_iff (b : Board) (x y : Int) (player : Nat)
    (hwf : ∀ p ∈ allCells, b p.1 p.2 = EMPTY ∨ b p.1 p.2 = BLACK ∨ b p.1 p.2 = WHITE)
    (hp : player = BLACK ∨ player = WHITE) :
    (¬ inBounds x y ∨ (b x y ≠ EMPTY ∧ b x y ≠ player)) ↔
    (¬ inBounds x y ∨ b x y = opponent player) := by
  by_cases hin : inBounds x y
  · have hcell : b x y = EMPTY ∨ b x y = BLACK ∨ b x y = WHITE := by
      simpa using hwf (x, y) (mem_allCells.mpr hin)
    rw [or_iff_right (not_not_intro hin), or_iff_right (not_not_intro hin)]
    rcases hp with hp | hp <;> subst hp <;> rcases hcell with h | h | h <;>
      rw [h] <;> decide
  · simp [hin]

/-- The raw "stopped blocked" condition coincides with the spec's
"board edge or opponent stone" phrasing on well-formed boards. -/
theorem sideBlocked_eq (b : Board) (row col dr dc : Int) (player : Nat)
    (hwf : ∀ p ∈ allCells, b p.1 p.2 = EMPTY ∨ b p.1 p.2 = BLACK ∨ b p.1 p.2 = WHITE)
    (hp : player = BLACK ∨ player = WHITE) :
    (if prefLen b row col dr dc player 1 4 < 4 ∧
        stopBlocked b row col dr dc player (1 + prefLen b row col dr dc player 1 4)
      then (1 : Nat) else 0) =
    (if specSideBlocked b row col (dr, dc) player then 1 else 0) := by
  refine if_congr (and_congr_right (fun _ => ?_)) rfl rfl
  exact blockedCell_iff b _ _ player hwf hp

/-- One direction's contribution to `evaluatePosition` equals the table
score at the spec's (run length, blocked ends) key. -/
theorem dirEval_eq (b : Board) (row col dr dc : Int) (player : Nat)
    (hwf : ∀ p ∈ allCells, b p.1 p.2 = EMPTY ∨ b p.1 p.2 = BLACK ∨ b p.1 p.2 = WHITE)
    (hp : player = BLACK ∨ player = WHITE) :
    dirScore
      (1 + (sideScan b row col dr dc player 4 1).1 +
        (sideScan b row col (-dr) (-dc) player 4 1).1)
      ((sideScan b row col dr dc player 4 1).2 +
        (sideScan b row col (-dr) (-dc) player 4 1).2) =
    dirScore (specRunLength b row col (dr, dc) player)
      (specBlockedEnds b row col (dr, dc) player) := by
  simp only [sideScan_char]
  congr 1
  simp only [specBlockedEnds]
  rw [sideBlocked_eq b row col dr dc player hwf hp,
    sideBlocked_eq b row col (-dr) (-dc) player hwf hp]

/-- Claim C5: for every well-formed board and every cell occupied by a
given player, `evaluatePosition` returns the sum over the four line
directions of the table score keyed by (contiguous same-player run length
through the cell scanning at most 4 steps each way, blocked-ends count),
where a side increments the blocked-ends count exactly when its scan
stopped at the board edge or an opponent stone, never at an empty cell. -/
theorem evaluatePosition_table (b : Board) (row col : Int) (player : Nat)
    (hwf : ∀ p ∈ allCells, b p.1 p.2 = EMPTY ∨ b p.1 p.2 = BLACK ∨ b p.1 p.2 = WHITE)
    (hp : player = BLACK ∨ player = WHITE)
    (hocc : b row col = player) :
    evaluatePosition b row col player =
      (directions.map (fun d =>
        dirScore (specRunLength b row col d player)
          (specBlockedEnds b row col d player))).foldl (· + ·) 0 := by
  simp only [evaluatePosition, directions, List.map_cons, List.map_nil]
  rw [dirEval_eq b row col 0 1 player hwf hp, dirEval_eq b row col 1 0 player hwf hp,
    dirEval_eq b row col 1 1 player hwf hp, dirEval_eq b row col 1 (-1) player hwf hp]

/-- Witness for C5: three WHITE stones at `(7,7)-(7,9)`, evaluated at
`(7,7)` for WHITE. -/
theorem evaluatePosition_table_witness :
    ((∀ p ∈ allCells, boardThreeWhite p.1 p.2 = EMPTY ∨
        boardThreeWhite p.1 p.2 = BLACK ∨ boardThreeWhite p.1 p.2 = WHITE) ∧
      (WHITE = BLACK ∨ WHITE = WHITE) ∧ boardThreeWhite 7 7 = WHITE) ∧
    evaluatePosition boardThreeWhite 7 7 WHITE =
      (directions.map (fun d =>
        dirScore (specRunLength boardThreeWhite 7 7 d WHITE)
          (specBlockedEnds boardThreeWhite 7 7 d WHITE))).foldl (· + ·) 0 :=
  ⟨⟨by decide, by decide, by decide⟩,
    evaluatePosition_table boardThreeWhite 7 7 WHITE (by decide) (by decide) (by decide)⟩

/-- The direction loop of `checkWin` agrees with the spec formulation:
find the first direction whose run through the origin reaches 5, and
report its first five collected coordinates. -/
theorem checkWinDirs_eq (b : Board) (row col : Int) (player : Nat) :
    ∀ ds : List (Int × Int),
      checkWinDirs b row col player ds =
        (ds.find? (fun d => decide (5 ≤ specRunLength b row col d player))).map
          (fun d => specWinCoords b row col d player) := by
  intro ds
  induction ds with
  | nil => rfl
  | cons d rest ih =>
    have hlen : ((row, col) :: (walkDir b row col d.1 d.2 player 4 1 ++
        walkDir b row col (-d.1) (-d.2) player 4 1)).length =
        specRunLength b row col d player := by
      rw [walkDir_char, walkDir_char]
      simp only [List.length_cons, List.length_append, List.length_map,
        specRunLength, specRunSide, prefLen]
      omega
    simp only [checkWinDirs]
    by_cases hwin : 5 ≤ specRunLength b row col d player
    · rw [if_pos (by rw [hlen]; exact hwin),
        List.find?_cons_of_pos rest (decide_eq_true hwin), Option.map_some']
      congr 1
      rw [walkDir_char, walkDir_char]
      simp only [specWinCoords]
    · rw [if_neg (by rw [hlen]; omega),
        List.find?_cons_of_neg rest (by simpa using hwin)]
      exact ih

/-- Claim C6: for every board and origin cell, `checkWin` walks up to 4
steps each way in each of the four directions collecting coordinates of
same-owner stones contiguous with the origin; if some direction's total
contiguous count including the origin reaches 5 or more, it returns
exactly the first five collected coordinates in scan order (origin, then
positive-direction steps, then negative-direction steps, truncated to
five), stopping at the first such direction; otherwise it returns `none`
— the result depends only on the cells within 4 steps of the origin, so a
five-in-a-row elsewhere on the board is never reported. -/
theorem checkWin_eq_spec (b : Board) (row col : Int) :
    checkWin b row col = specCheckWin b row col :=
  checkWinDirs_eq b row col (b row col) directions

/-- The guard `inSearchRange` is true iff some occupied in-bounds cell lies within
Chebyshev distance 2. -/
theorem inSearchRange_iff (b : Board) (row col : Int) :
    inSearchRange b row col = true ↔
      ∃ r c : Int, (r - row).natAbs ≤ 2 ∧ (c - col).natAbs ≤ 2 ∧
        inBounds r c ∧ b r c ≠ EMPTY := by
  simp only [inSearchRange, List.any_eq_true, List.mem_range, Bool.and_eq_true,
    decide_eq_true_eq]
  constructor
  · rintro ⟨di, hdi, dj, hdj, hin, hocc⟩
    exact ⟨row - 2 + (di : Int), col - 2 + (dj : Int), by omega, by omega, hin, hocc⟩
  · rintro ⟨r, c, hr, hc, hin, hocc⟩
    have h1 : row - 2 + ((r - row + 2).toNat : Int) = r := by
      rw [Int.toNat_of_nonneg (by omega)]; ring
    have h2 : col - 2 + ((c - col + 2).toNat : Int) = c := by
      rw [Int.toNat_of_nonneg (by omega)]; ring
    exact ⟨(r - row + 2).toNat, by omega, (c - col + 2).toNat, by omega,
      by rw [h1, h2]; exact hin, by rw [h1, h2]; exact hocc⟩

/-- Claim C7: the guard shared by both `minimax` loops and by `makeAIMove`
accepts a cell iff it is empty and at least one occupied cell lies within
Chebyshev distance 2 of it (5x5 neighborhood clipped to the board), and
the cell list `allCells` those loops traverse is strictly increasing in
row-major order (row ascending, then column ascending), so candidates are
enumerated in row-major order. -/
theorem candidate_filter_spec :
    (∀ (b : Board) (i j : Int),
      isCandidate b i j = true ↔
        (b i j = EMPTY ∧ ∃ r c : Int,
          (r - i).natAbs ≤ 2 ∧ (c - j).natAbs ≤ 2 ∧ inBounds r c ∧ b r c ≠ EMPTY)) ∧
    List.Pairwise rowMajorLt allCells := by
  refine ⟨?_, by decide⟩
  intro b i j
  simp only [isCandidate, Bool.and_eq_true, decide_eq_true_eq, inSearchRange_iff]

/-- Swapping the maximizing role negates each cell's contribution. -/
theorem cellStep_neg (b : Board) (a : Int) (p : Int × Int) :
    cellStep b BLACK a p = - cellStep b WHITE (-a) p := by
  simp only [cellStep]
  have hob : opponent BLACK = WHITE := rfl
  have how : opponent WHITE = BLACK := rfl
  rw [hob, how]
  by_cases hB : b p.1 p.2 = BLACK
  · have hW : ¬ b p.1 p.2 = WHITE := by rw [hB]; decide
    rw [if_pos hB, if_neg hW, if_pos hB]
    ring
  · by_cases hW : b p.1 p.2 = WHITE
    · rw [if_neg hB, if_pos hW, if_pos hW]
      ring
    · rw [if_neg hB, if_neg hW, if_neg hW, if_neg hB]
      ring

/-- A fold whose step negates pointwise negates the whole fold. -/
theorem foldl_neg_of_step (f g : Int → (Int × Int) → Int)
    (h : ∀ (a : Int) (p : Int × Int), f a p = - g (-a) p) :
    ∀ (l : List (Int × Int)) (a : Int), l.foldl f a = - l.foldl g (-a) := by
  intro l
  induction l with
  | nil => intro a; simp
  | cons p rest ih =>
    intro a
    simp only [List.foldl_cons]
    rw [h a p, ih, neg_neg]

/-- Claim C8: for every board in which each cell is empty or owned by one
of the two players, the board evaluation computed with the roles of
maximizing and minimizing player swapped equals the negation of the
evaluation with the original roles (`evaluateBoardAs b WHITE` being the
source's `evaluateBoard b`). -/
theorem evaluateBoard_antisym (b : Board)
    (hwf : ∀ p ∈ allCells, b p.1 p.2 = EMPTY ∨ b p.1 p.2 = BLACK ∨ b p.1 p.2 = WHITE) :
    evaluateBoardAs b BLACK = - evaluateBoardAs b WHITE ∧
    evaluateBoardAs b WHITE = evaluateBoard b := by
  constructor
  · exact foldl_neg_of_step (cellStep b BLACK) (cellStep b WHITE) (cellStep_neg b) allCells 0
  · rfl

/-- Witness for C8 on the three-WHITE-stone board. -/
theorem evaluateBoard_antisym_witness :
    (∀ p ∈ allCells, boardThreeWhite p.1 p.2 = EMPTY ∨
      boardThreeWhite p.1 p.2 = BLACK ∨ boardThreeWhite p.1 p.2 = WHITE) ∧
    (evaluateBoardAs boardThreeWhite BLACK = - evaluateBoardAs boardThreeWhite WHITE ∧
      evaluateBoardAs boardThreeWhite WHITE = evaluateBoard boardThreeWhite) :=
  ⟨by decide, evaluateBoard_antisym boardThreeWhite (by decide)⟩

end Gobang
